import Mathlib

/-!
Shallow embedding of the MongoDB-backed ADK session service
(`src/google_adk_mongo_session_service/mongo_session_service.py` and
`models.py`) and verification of its specification claims.

Modelling conventions:
- Python strings are `List Char` (`Str`).
- Python dicts are association lists with unique keys (`Dict V`); dict
  assignment is `dinsert`, the right-biased `|` merge is `dunion`, and
  Python dict equality (extensional) is stated through `dlookup`.
- Timestamps (`datetime` values and their float `timestamp()` images) are
  `Int` in UTC; the tz-normalising helper `_update_timestamp_tz` is the
  identity under this convention, so stored `update_time` fields are
  compared directly.
- Each MongoDB collection is a list of records; `_id` is never stored but
  derived from the record fields by the doc-id helpers, exactly as in
  `models.py`.  `find_one`/`delete_one`/`replace_one` act on the first
  record whose derived `_id` matches; `insert_one` appends.
- A cursor `limit(n)` follows MongoDB semantics: a limit of `0` is no
  limit (`mongoLimit`).
- Wall-clock reads (`datetime.now`) are an explicit `now : Int` argument.
- Fallible operations return an `Except SvcError _` result paired with
  the store as left at the point of return, mirroring the position of
  each `raise` in the code relative to the writes.
-/

/-- Python strings, modelled as lists of characters. -/
abbrev Str : Type := List Char

/-- Python dicts with `Str` keys: association lists, unique keys by
construction of the operations below. -/
abbrev Dict (V : Type) : Type := List (Str × V)

/-- Python dict lookup `d[k]` (as an `Option`): first matching entry. -/
def dlookup {V : Type} (d : Dict V) (k : Str) : Option V :=
  match d with
  | [] => none
  | (k₁, v) :: rest => if k₁ = k then some v else dlookup rest k

/-- Python dict assignment `d[k] = v`: replaces the value in place if the
key is present, appends otherwise. -/
def dinsert {V : Type} (d : Dict V) (k : Str) (v : V) : Dict V :=
  match d with
  | [] => [(k, v)]
  | (k₁, v₁) :: rest =>
      if k₁ = k then (k₁, v) :: rest else (k₁, v₁) :: dinsert rest k v

/-- Python dict merge `a | b`: right operand wins on common keys. -/
def dunion {V : Type} (a b : Dict V) : Dict V :=
  b.foldl (fun m p => dinsert m p.1 p.2) a

/-- `models.session_doc_id`: `f"{app_name}_{user_id}_{id}"`. -/
def session_doc_id (app_name user_id id : Str) : Str :=
  app_name ++ '_' :: user_id ++ '_' :: id

/-- `models.event_doc_id`: `f"{event_id}_{app_name}_{user_id}_{session_id}"`. -/
def event_doc_id (event_id app_name user_id session_id : Str) : Str :=
  event_id ++ '_' :: app_name ++ '_' :: user_id ++ '_' :: session_id

/-- `models.app_state_doc_id`: the application name itself. -/
def app_state_doc_id (app_name : Str) : Str := app_name

/-- `models.user_state_doc_id`: `f"{app_name}_{user_id}"`. -/
def user_state_doc_id (app_name user_id : Str) : Str :=
  app_name ++ '_' :: user_id

/-- `models.metadata_doc_id`: the key itself. -/
def metadata_doc_id (key : Str) : Str := key

/-- `google.adk.sessions.state.State.APP_PREFIX` = `"app:"`. -/
def APP_PREFIX : Str := ['a', 'p', 'p', ':']

/-- `google.adk.sessions.state.State.USER_PREFIX` = `"user:"`. -/
def USER_PREFIX : Str := ['u', 's', 'e', 'r', ':']

/-- Result of routing a flat delta into the three scopes. -/
structure StateDeltas (V : Type) where
  app : Dict V
  user : Dict V
  session : Dict V
deriving DecidableEq

/-- Modelled from the spec: the State Scope Router
(`google.adk.sessions._session_util.extract_state_delta`, an external
dependency not under `src/`), per §4.2 — an application-prefixed key is
stripped and placed under `app`, else a user-prefixed key is stripped and
placed under `user`, otherwise the key is kept unmodified under
`session`. -/
def extract_state_delta {V : Type} (d : Dict V) : StateDeltas V where
  app :=
    (d.filter (fun p => APP_PREFIX.isPrefixOf p.1)).map
      (fun p => (p.1.drop APP_PREFIX.length, p.2))
  user :=
    (d.filter (fun p =>
        !APP_PREFIX.isPrefixOf p.1 && USER_PREFIX.isPrefixOf p.1)).map
      (fun p => (p.1.drop USER_PREFIX.length, p.2))
  session :=
    d.filter (fun p =>
      !APP_PREFIX.isPrefixOf p.1 && !USER_PREFIX.isPrefixOf p.1)

/-- `mongo_session_service._merge_state`: start from a copy of the
session-local state, then add every app key under the app prefix and every
user key under the user prefix. -/
def _merge_state {V : Type} (app_state user_state session_state : Dict V) :
    Dict V :=
  let m := app_state.foldl
    (fun m p => dinsert m (APP_PREFIX ++ p.1) p.2) session_state
  user_state.foldl (fun m p => dinsert m (USER_PREFIX ++ p.1) p.2) m

/-- `models.MongoSession` (document of the `sessions` collection). -/
structure MongoSession (V : Type) where
  app_name : Str
  user_id : Str
  id : Str
  state : Dict V
  create_time : Int
  update_time : Int
deriving DecidableEq

/-- The ADK `Event`, restricted to the fields the service reads or
stores: `id`, `invocation_id`, `timestamp`, the `partial` flag (renamed
`isPartial`: `partial` is a Lean keyword) and `actions.state_delta`
(an absent `actions` is the empty delta). -/
structure Event (V : Type) where
  id : Str
  invocation_id : Str
  timestamp : Int
  isPartial : Bool
  state_delta : Dict V
deriving DecidableEq

/-- `models.MongoEvent` (document of the `events` collection):
the lookup columns plus `event_data`, the dump of the appended event. -/
structure MongoEvent (V : Type) where
  id : Str
  app_name : Str
  user_id : Str
  session_id : Str
  invocation_id : Str
  timestamp : Int
  data : Event V
deriving DecidableEq

/-- `models.MongoAppState` (document of the `app_states` collection). -/
structure MongoAppState (V : Type) where
  app_name : Str
  state : Dict V
  update_time : Int
deriving DecidableEq

/-- `models.MongoUserState` (document of the `user_states` collection). -/
structure MongoUserState (V : Type) where
  app_name : Str
  user_id : Str
  state : Dict V
  update_time : Int
deriving DecidableEq

/-- The ADK `Session` handle returned to callers. -/
structure Session (V : Type) where
  app_name : Str
  user_id : Str
  id : Str
  state : Dict V
  events : List (Event V)
  last_update_time : Int
deriving DecidableEq

/-- `MongoEvent.to_event`: rebuild the event from `event_data`, with the
`id`, `invocation_id` and `timestamp` columns authoritative. -/
def MongoEvent.toEvent {V : Type} (m : MongoEvent V) : Event V :=
  { m.data with
    id := m.id, invocation_id := m.invocation_id, timestamp := m.timestamp }

/-- `MongoEvent.from_event`: columns from the session handle and the
event, `event_data` from the event itself. -/
def MongoEvent.fromEvent {V : Type} (s : Session V) (e : Event V) :
    MongoEvent V :=
  ⟨e.id, s.app_name, s.user_id, s.id, e.invocation_id, e.timestamp, e⟩

/-- `MongoSession.to_session` with an explicit merged state and event
list; `last_update_time` is the stored `update_time` (UTC). -/
def MongoSession.toSession {V : Type} (m : MongoSession V) (state : Dict V)
    (events : List (Event V)) : Session V :=
  ⟨m.app_name, m.user_id, m.id, state, events, m.update_time⟩

/-- The four collections of the database. -/
structure Store (V : Type) where
  sessions : List (MongoSession V)
  events : List (MongoEvent V)
  app_states : List (MongoAppState V)
  user_states : List (MongoUserState V)
deriving DecidableEq

/-- The empty database. -/
def emptyStore (V : Type) : Store V := ⟨[], [], [], []⟩

/-- Derived `_id` of a stored session document. -/
def sessionDocIdOf {V : Type} (r : MongoSession V) : Str :=
  session_doc_id r.app_name r.user_id r.id

/-- Derived `_id` of a stored user-state document. -/
def userStateDocIdOf {V : Type} (r : MongoUserState V) : Str :=
  user_state_doc_id r.app_name r.user_id

/-- `find_one({"_id": sid})` on the `sessions` collection. -/
def findSessionRec {V : Type} (st : Store V) (sid : Str) :
    Option (MongoSession V) :=
  st.sessions.find? (fun r => sessionDocIdOf r == sid)

/-- `find_one({"_id": ...})` on `app_states`, reduced to its state (the
missing-record case is the empty state, as in the read paths). -/
def appStateOf {V : Type} (st : Store V) (app_name : Str) : Dict V :=
  match st.app_states.find?
      (fun r => app_state_doc_id r.app_name == app_state_doc_id app_name) with
  | some r => r.state
  | none => []

/-- `find_one({"_id": ...})` on `user_states`, reduced to its state. -/
def userStateOf {V : Type} (st : Store V) (app_name user_id : Str) : Dict V :=
  match st.user_states.find?
      (fun r => userStateDocIdOf r == user_state_doc_id app_name user_id) with
  | some r => r.state
  | none => []

/-- `replace_one({"_id": sid}, newRec, upsert)`: replace the first record
whose derived id is `sid`; with `upsert` insert when no record matches. -/
def replaceById {A : Type} (docId : A → Str) (sid : Str) (newRec : A)
    (upsert : Bool) : List A → List A
  | [] => if upsert then [newRec] else []
  | r :: rest =>
      if docId r == sid then newRec :: rest
      else r :: replaceById docId sid newRec upsert rest

/-- `delete_one`: remove the first record satisfying the filter. -/
def deleteFirst {A : Type} (p : A → Bool) : List A → List A
  | [] => []
  | r :: rest => if p r then rest else r :: deleteFirst p rest

/-- The service's error taxonomy: `AlreadyExistsError` in
`create_session`, and the two `ValueError` raise sites of `append_event`
(session not found; stale session detected by the concurrency check). -/
inductive SvcError where
  | alreadyExists
  | notFound
  | staleSession
deriving DecidableEq

/-- Body of `create_session` after the AlreadyExists check: get-or-create
the app/user state records, route the initial state, apply the app/user
fragments (plain `replace_one`, no upsert — the records were just
ensured), insert the new session record with both timestamps `now`, and
return the session with the merged effective state.  `sid` is the
caller-supplied or generated session id, `now` the wall clock. -/
def create_core {V : Type} (st : Store V) (app_name user_id : Str)
    (state : Dict V) (sid : Str) (now : Int) : Session V × Store V :=
  let app_sid := app_state_doc_id app_name
  let app_found := st.app_states.find?
    (fun r => app_state_doc_id r.app_name == app_sid)
  let app_state₀ : MongoAppState V :=
    match app_found with
    | some d => d
    | none => ⟨app_name, [], now⟩
  let appStates₁ : List (MongoAppState V) :=
    match app_found with
    | some _ => st.app_states
    | none => st.app_states ++ [(⟨app_name, [], now⟩ : MongoAppState V)]
  let user_sid := user_state_doc_id app_name user_id
  let user_found := st.user_states.find?
    (fun r => userStateDocIdOf r == user_sid)
  let user_state₀ : MongoUserState V :=
    match user_found with
    | some d => d
    | none => ⟨app_name, user_id, [], now⟩
  let userStates₁ : List (MongoUserState V) :=
    match user_found with
    | some _ => st.user_states
    | none =>
        st.user_states ++ [(⟨app_name, user_id, [], now⟩ : MongoUserState V)]
  let deltas := extract_state_delta state
  let app_state₁ :=
    if deltas.app.isEmpty then app_state₀
    else { app_state₀ with state := dunion app_state₀.state deltas.app }
  let appStates₂ :=
    if deltas.app.isEmpty then appStates₁
    else replaceById (fun r => app_state_doc_id r.app_name) app_sid app_state₁
      false appStates₁
  let user_state₁ :=
    if deltas.user.isEmpty then user_state₀
    else { user_state₀ with state := dunion user_state₀.state deltas.user }
  let userStates₂ :=
    if deltas.user.isEmpty then userStates₁
    else replaceById userStateDocIdOf user_sid user_state₁ false userStates₁
  let srec : MongoSession V := ⟨app_name, user_id, sid, deltas.session, now, now⟩
  let merged := _merge_state app_state₁.state user_state₁.state deltas.session
  (srec.toSession merged [],
   ⟨st.sessions ++ [srec], st.events, appStates₂, userStates₂⟩)

/-- `MongoSessionService.create_session`.  A `None` initial state is the
empty dict.  When `session_id` is supplied and a session document already
owns the derived `_id`, fails with `AlreadyExists` before any write; the
generated id (`uuid.uuid4()`) of the `None` branch is the parameter
`genId`. -/
def create_session {V : Type} (st : Store V) (app_name user_id : Str)
    (state : Dict V) (session_id : Option Str) (genId : Str) (now : Int) :
    Except SvcError (Session V) × Store V :=
  match session_id with
  | some sid =>
      if (findSessionRec st (session_doc_id app_name user_id sid)).isSome then
        (Except.error SvcError.alreadyExists, st)
      else
        let p := create_core st app_name user_id state sid now
        (Except.ok p.1, p.2)
  | none =>
      let p := create_core st app_name user_id state genId now
      (Except.ok p.1, p.2)

/-- The optional `GetSessionConfig` of `get_session`. -/
structure GetSessionConfig where
  after_timestamp : Option Int
  num_recent_events : Option Nat
deriving DecidableEq

/-- MongoDB `cursor.limit`: a limit of `0` means no limit. -/
def mongoLimit {A : Type} (l : List A) (n : Option Nat) : List A :=
  match n with
  | none => l
  | some 0 => l
  | some (k + 1) => l.take (k + 1)

/-- The event filter of `get_session`: the (app, user, session) columns,
plus `timestamp: {"$gte": after}` when configured. -/
def eventMatches {V : Type} (app_name user_id session_id : Str)
    (after : Option Int) (m : MongoEvent V) : Bool :=
  m.app_name == app_name && m.user_id == user_id &&
    m.session_id == session_id &&
    (match after with
     | some t => decide (t ≤ m.timestamp)
     | none => true)

/-- `MongoSessionService.get_session`: find the session document by
`_id` (absent → `None`); fetch its events sorted by descending timestamp
with the optional `$gte` filter and `limit`, then reverse; merge the
freshly-read app/user states with the session-local state. -/
def get_session {V : Type} (st : Store V) (app_name user_id session_id : Str)
    (config : GetSessionConfig) : Option (Session V) :=
  match findSessionRec st (session_doc_id app_name user_id session_id) with
  | none => none
  | some srec =>
      let filtered := st.events.filter
        (eventMatches app_name user_id session_id config.after_timestamp)
      let sorted := List.insertionSort
        (fun a b : MongoEvent V => b.timestamp ≤ a.timestamp) filtered
      let limited := mongoLimit sorted config.num_recent_events
      let events := limited.reverse.map MongoEvent.toEvent
      let merged := _merge_state (appStateOf st app_name)
        (userStateOf st app_name user_id) srec.state
      some (srec.toSession merged events)

/-- `MongoSessionService.list_sessions`: sessions filtered by `app_name`
(and `user_id` when given), merged against the app state and a user-id →
user-state map — a single `_id` lookup when `user_id` is given, otherwise
one entry per user-state record of the application. -/
def list_sessions {V : Type} (st : Store V) (app_name : Str)
    (user_id : Option Str) : List (Session V) :=
  let docs := st.sessions.filter (fun r =>
    r.app_name == app_name &&
      (match user_id with
       | some u => r.user_id == u
       | none => true))
  let app_state := appStateOf st app_name
  let user_states_map : Dict (Dict V) :=
    match user_id with
    | some u =>
        match st.user_states.find?
            (fun r => userStateDocIdOf r == user_state_doc_id app_name u) with
        | some r => dinsert [] u r.state
        | none => []
    | none =>
        (st.user_states.filter (fun r => r.app_name == app_name)).foldl
          (fun m r => dinsert m r.user_id r.state) []
  docs.map (fun srec =>
    let user_state := (dlookup user_states_map srec.user_id).getD []
    srec.toSession (_merge_state app_state user_state srec.state) [])

/-- `MongoSessionService.delete_session`: `delete_many` of the events
matching the (app, user, session) columns, then `delete_one` of the
session document by derived `_id`. -/
def delete_session {V : Type} (st : Store V)
    (app_name user_id session_id : Str) : Store V :=
  let st₁ := { st with events := st.events.filter (fun m =>
      !(m.app_name == app_name && m.user_id == user_id &&
        m.session_id == session_id)) }
  let remaining := deleteFirst
    (fun r => sessionDocIdOf r == session_doc_id app_name user_id session_id)
    st₁.sessions
  { st₁ with sessions := remaining }

/-- `MongoSessionService.append_event`.  A partial event is returned
unchanged with no store access.  Otherwise: find the session document by
`_id` (`NotFound` when absent; raised before any write), run the
optimistic-concurrency check (`StaleSession` when the stored update
timestamp is strictly greater than the handle's `last_update_time`; also
before any write), read-or-default the app/user state records, route the
event's state delta and apply each non-empty fragment (app/user via
upserting `replace_one`, the session fragment merged into the document's
local state), set the document's `update_time` to the event's timestamp,
`replace_one` the session document, `insert_one` the event, and update
the handle's `last_update_time` to the new stored timestamp.

The host-framework helpers `_trim_temp_delta_state` and
`BaseSessionService.append_event` are external code not under `src/`;
per the spec (§4.5: the event "is returned unchanged (it is not
enriched)"; the in-memory handle's last-known update time is updated to
match) the former is the identity and the latter touches only the
handle, so only the handle's timestamp update is modelled.  `now` is the
wall clock used for the audit-only `update_time` default of a
newly-constructed app/user state record. -/
def append_event {V : Type} (st : Store V) (session : Session V)
    (event : Event V) (now : Int) :
    Except SvcError (Session V × Event V) × Store V :=
  if event.isPartial then (Except.ok (session, event), st)
  else
    let sid := session_doc_id session.app_name session.user_id session.id
    match findSessionRec st sid with
    | none => (Except.error SvcError.notFound, st)
    | some srec =>
        if session.last_update_time < srec.update_time then
          (Except.error SvcError.staleSession, st)
        else
          let app_sid := app_state_doc_id session.app_name
          let user_sid := user_state_doc_id session.app_name session.user_id
          let app_state₀ :=
            match st.app_states.find?
                (fun r => app_state_doc_id r.app_name == app_sid) with
            | some d => d
            | none => (⟨session.app_name, [], now⟩ : MongoAppState V)
          let user_state₀ :=
            match st.user_states.find?
                (fun r => userStateDocIdOf r == user_sid) with
            | some d => d
            | none =>
                (⟨session.app_name, session.user_id, [], now⟩ : MongoUserState V)
          let deltas := extract_state_delta event.state_delta
          let hasDelta := !event.state_delta.isEmpty
          let appStates₁ :=
            if hasDelta && !deltas.app.isEmpty then
              replaceById (fun r => app_state_doc_id r.app_name) app_sid
                { app_state₀ with
                  state := dunion app_state₀.state deltas.app }
                true st.app_states
            else st.app_states
          let userStates₁ :=
            if hasDelta && !deltas.user.isEmpty then
              replaceById userStateDocIdOf user_sid
                { user_state₀ with
                  state := dunion user_state₀.state deltas.user }
                true st.user_states
            else st.user_states
          let srec₁ :=
            if hasDelta && !deltas.session.isEmpty then
              { srec with state := dunion srec.state deltas.session }
            else srec
          let srec₂ := { srec₁ with update_time := event.timestamp }
          let session₁ := { session with last_update_time := srec₂.update_time }
          (Except.ok (session₁, event),
           ⟨replaceById sessionDocIdOf sid srec₂ false st.sessions,
            st.events ++ [MongoEvent.fromEvent session event],
            appStates₁, userStates₁⟩)

/-! ### Dictionary and list helper lemmas -/

theorem dlookup_dinsert {V : Type} (d : Dict V) (k j : Str) (v : V) :
    dlookup (dinsert d k v) j = if k = j then some v else dlookup d j := by
  induction d with
  | nil =>
      by_cases h : k = j <;> simp [dinsert, dlookup, h]
  | cons p rest ih =>
      obtain ⟨k₁, v₁⟩ := p
      by_cases h₁ : k₁ = k
      · subst h₁
        by_cases h₂ : k₁ = j <;> simp [dinsert, dlookup, h₂]
      · by_cases h₂ : k₁ = j
        · subst h₂
          have hkj : ¬k = k₁ := fun h => h₁ h.symm
          simp [dinsert, dlookup, h₁, hkj]
        · simp [dinsert, dlookup, h₁, h₂, ih]

theorem mem_of_dlookup_eq_some {V : Type} {d : Dict V} {k : Str} {v : V}
    (h : dlookup d k = some v) : (k, v) ∈ d := by
  induction d with
  | nil => simp [dlookup] at h
  | cons p rest ih =>
      obtain ⟨k₁, v₁⟩ := p
      by_cases h₁ : k₁ = k
      · subst h₁
        simp [dlookup] at h
        simp [h]
      · simp [dlookup, h₁] at h
        exact List.mem_cons_of_mem _ (ih h)

theorem dlookup_eq_none_iff {V : Type} (d : Dict V) (k : Str) :
    dlookup d k = none ↔ ∀ p ∈ d, p.1 ≠ k := by
  induction d with
  | nil => exact ⟨fun _ p hp => absurd hp (List.not_mem_nil p), fun _ => rfl⟩
  | cons p rest ih =>
      obtain ⟨k₁, v₁⟩ := p
      by_cases h₁ : k₁ = k
      · subst h₁
        simp only [dlookup, if_pos rfl]
        constructor
        · intro h
          exact absurd h (by simp)
        · intro hall
          exact absurd rfl (hall (k₁, v₁) (List.mem_cons_self _ _))
      · simp only [dlookup, if_neg h₁]
        rw [ih]
        constructor
        · intro hall q hq
          rcases List.mem_cons.mp hq with rfl | hq₂
          · exact h₁
          · exact hall q hq₂
        · intro hall q hq
          exact hall q (List.mem_cons_of_mem _ hq)

theorem dlookup_eq_some_of_nodup {V : Type} {d : Dict V} {k : Str} {v : V}
    (hnd : (d.map Prod.fst).Nodup) (hm : (k, v) ∈ d) :
    dlookup d k = some v := by
  induction d with
  | nil => simp at hm
  | cons p rest ih =>
      obtain ⟨k₁, v₁⟩ := p
      simp only [List.map_cons, List.nodup_cons] at hnd
      rcases List.mem_cons.mp hm with h | h
      · obtain ⟨h₁, h₂⟩ := Prod.mk.injEq .. ▸ h.symm
        simp [dlookup, h₁, h₂]
      · have hk : k₁ ≠ k := by
          intro heq
          exact hnd.1 (heq ▸ List.mem_map_of_mem Prod.fst h)
        simp [dlookup, hk, ih hnd.2 h]

theorem dlookup_foldl_of_notin {A V : Type} (keyf : A → Str) (valf : A → V)
    (l : List A) (m : Dict V) (k : Str) (h : ∀ r ∈ l, keyf r ≠ k) :
    dlookup (l.foldl (fun m r => dinsert m (keyf r) (valf r)) m) k =
      dlookup m k := by
  induction l generalizing m with
  | nil => rfl
  | cons r rest ih =>
      simp only [List.foldl_cons]
      rw [ih _ (fun x hx => h x (List.mem_cons_of_mem _ hx))]
      rw [dlookup_dinsert]
      simp [h r (List.mem_cons_self r rest)]

theorem dlookup_foldl_of_mem {A V : Type} (keyf : A → Str) (valf : A → V) :
    ∀ (l : List A) (m : Dict V) (k : Str) (r₀ : A),
      (l.map keyf).Nodup → r₀ ∈ l → keyf r₀ = k →
      dlookup (l.foldl (fun m r => dinsert m (keyf r) (valf r)) m) k =
        some (valf r₀) := by
  intro l
  induction l with
  | nil =>
      intro m k r₀ _ hm _
      exact absurd hm (List.not_mem_nil r₀)
  | cons r rest ih =>
      intro m k r₀ hnd hm hk
      simp only [List.map_cons, List.nodup_cons] at hnd
      simp only [List.foldl_cons]
      rcases List.mem_cons.mp hm with h | h
      · subst h
        rw [dlookup_foldl_of_notin]
        · rw [dlookup_dinsert]
          simp [hk]
        · intro x hx hkx
          refine hnd.1 ?_
          rw [hk, ← hkx]
          exact List.mem_map_of_mem keyf hx
      · exact ih (dinsert m (keyf r) (valf r)) k r₀ hnd.2 h hk

/-- `find?` is unchanged by pointwise-equal predicates. -/
theorem find?_congr_pred {A : Type} {p q : A → Bool} (l : List A)
    (h : ∀ x ∈ l, p x = q x) : l.find? p = l.find? q := by
  induction l with
  | nil => rfl
  | cons x rest ih =>
      have hx := h x (List.mem_cons_self x rest)
      by_cases hp : p x = true
      · rw [List.find?_cons_of_pos _ hp, List.find?_cons_of_pos _ (hx ▸ hp)]
      · rw [List.find?_cons_of_neg _ hp,
          List.find?_cons_of_neg _ (hx ▸ hp),
          ih (fun y hy => h y (List.mem_cons_of_mem _ hy))]

/-- `find?` through a conjunction is `find?` on the filtered list. -/
theorem find?_filter_and {A : Type} (p q : A → Bool) (l : List A) :
    l.find? (fun x => p x && q x) = (l.filter p).find? q := by
  induction l with
  | nil => rfl
  | cons x rest ih =>
      by_cases hp : p x = true
      · by_cases hq : q x = true
        · rw [List.find?_cons_of_pos _ (by simp [hp, hq]),
            List.filter_cons_of_pos hp, List.find?_cons_of_pos _ hq]
        · rw [List.find?_cons_of_neg _ (by simp [hp, hq]),
            List.filter_cons_of_pos hp, List.find?_cons_of_neg _ (by simp [hq]),
            ih]
      · rw [List.find?_cons_of_neg _ (by simp [hp]),
          List.filter_cons_of_neg (by simp [hp]), ih]

theorem find?_replaceById {A : Type} (docId : A → Str) (sid : Str)
    (newRec : A) (up : Bool) {l : List A} {r : A}
    (hfind : l.find? (fun x => docId x == sid) = some r)
    (hnew : docId newRec = sid) :
    (replaceById docId sid newRec up l).find? (fun x => docId x == sid) =
      some newRec := by
  induction l with
  | nil => simp at hfind
  | cons x rest ih =>
      by_cases hx : docId x == sid
      · rw [replaceById, if_pos hx]
        exact List.find?_cons_of_pos _ (by simp [hnew])
      · rw [List.find?_cons_of_neg _ (by simpa using hx)] at hfind
        rw [replaceById, if_neg hx, List.find?_cons_of_neg _ (by simpa using hx)]
        exact ih hfind

theorem find?_append_right {A : Type} (p : A → Bool) {l : List A} (x : A)
    (hl : l.find? p = none) (hx : p x = true) :
    (l ++ [x]).find? p = some x := by
  induction l with
  | nil =>
      rw [List.nil_append]
      exact List.find?_cons_of_pos _ hx
  | cons y rest ih =>
      by_cases hy : p y = true
      · rw [List.find?_cons_of_pos _ hy] at hl
        exact absurd hl (by simp)
      · rw [List.find?_cons_of_neg _ hy] at hl
        rw [List.cons_append, List.find?_cons_of_neg _ hy]
        exact ih hl

theorem deleteFirst_of_find?_none {A : Type} {p : A → Bool} {l : List A}
    (h : l.find? p = none) : deleteFirst p l = l := by
  induction l with
  | nil => rfl
  | cons x rest ih =>
      by_cases hx : p x = true
      · rw [List.find?_cons_of_pos _ hx] at h
        exact absurd h (by simp)
      · rw [List.find?_cons_of_neg _ hx] at h
        rw [deleteFirst, if_neg (by simpa using hx), ih h]

theorem find?_deleteFirst_nodup {A : Type} (docId : A → Str) (sid : Str)
    {l : List A} (hnd : (l.map docId).Nodup) :
    (deleteFirst (fun x => docId x == sid) l).find?
      (fun x => docId x == sid) = none := by
  induction l with
  | nil => rfl
  | cons x rest ih =>
      simp only [List.map_cons, List.nodup_cons] at hnd
      by_cases hx : docId x == sid
      · rw [deleteFirst, if_pos hx]
        refine List.find?_eq_none.mpr (fun y hy => ?_)
        simp only [beq_iff_eq]
        intro hy₂
        have hx₂ : docId x = sid := by simpa using hx
        refine hnd.1 ?_
        rw [hx₂, ← hy₂]
        exact List.mem_map_of_mem docId hy
      · rw [deleteFirst, if_neg hx]
        refine List.find?_eq_none.mpr (fun y hy => ?_)
        rcases List.mem_cons.mp hy with rfl | hy₂
        · simpa using hx
        · exact List.find?_eq_none.mp (ih hnd.2) y hy₂

theorem nodup_map_of_determines {A B C : Type} {l : List A} (f : A → B)
    (g : A → C) (h : ∀ x ∈ l, ∀ y ∈ l, f x = f y → g x = g y)
    (hnd : (l.map g).Nodup) : (l.map f).Nodup := by
  have hg : List.Pairwise (fun a b => g a ≠ g b) l := List.pairwise_map.mp hnd
  refine List.pairwise_map.mpr ?_
  exact hg.imp_of_mem (fun ha hb hgab hfab => hgab (h _ ha _ hb hfab))

/-! ### Prefix and separator lemmas -/

theorem isPrefixOf_append_drop {p k : Str} (h : p.isPrefixOf k = true) :
    p ++ k.drop p.length = k := by
  obtain ⟨t, rfl⟩ := List.isPrefixOf_iff_prefix.mp h
  rw [List.drop_left]

theorem isPrefixOf_append (p t : Str) : p.isPrefixOf (p ++ t) = true :=
  List.isPrefixOf_iff_prefix.mpr (List.prefix_append p t)

theorem app_not_prefix_of_user (r : Str) :
    APP_PREFIX.isPrefixOf (USER_PREFIX ++ r) = false := rfl

theorem user_not_prefix_of_app (r : Str) :
    USER_PREFIX.isPrefixOf (APP_PREFIX ++ r) = false := rfl

/-- Splitting at an underscore separator is unambiguous when the left
components are underscore-free. -/
theorem append_sep_inj : ∀ {a a' b b' : Str}, '_' ∉ a → '_' ∉ a' →
    a ++ '_' :: b = a' ++ '_' :: b' → a = a' ∧ b = b' := by
  intro a
  induction a with
  | nil =>
      intro a' b b' _ ha' h
      cases a' with
      | nil => simpa using h
      | cons c t =>
          simp only [List.nil_append, List.cons_append, List.cons.injEq] at h
          exact absurd (h.1 ▸ List.mem_cons_self c t) ha'
  | cons c t ih =>
      intro a' b b' ha ha' h
      cases a' with
      | nil =>
          simp only [List.cons_append, List.nil_append, List.cons.injEq] at h
          exact absurd (h.1 ▸ List.mem_cons_self c t) ha
      | cons c' t' =>
          simp only [List.cons_append, List.cons.injEq] at h
          obtain ⟨rfl, h₂⟩ := h
          have ht : '_' ∉ t := fun hm => ha (List.mem_cons_of_mem _ hm)
          have ht' : '_' ∉ t' := fun hm => ha' (List.mem_cons_of_mem _ hm)
          obtain ⟨rfl, rfl⟩ := ih ht ht' h₂
          exact ⟨rfl, rfl⟩

/-! ### C4 — identifier derivation -/

/-- C4 counterexample: the doc-id helpers join components with a plain
`"_"` which may itself occur inside a component, so two distinct
business-key tuples can derive the same identifier:
`session_doc_id "a_b" "c" "d" = "a_b_c_d" = session_doc_id "a" "b" "c_d"`.
This refutes injectivity "for arbitrary string components". -/
theorem session_doc_id_collision :
    session_doc_id ['a', '_', 'b'] ['c'] ['d'] =
      session_doc_id ['a'] ['b'] ['c', '_', 'd'] ∧
    (['a', '_', 'b'] : Str) ≠ ['a'] := by decide

/-- C4 (amended): each identifier-deriving function is deterministic (it
is a pure function of its components), and is injective across distinct
tuples **provided the components joined on the left of a separator do not
contain the separator character `'_'`** — for arbitrary components the
underscore-joined ids can collide (`session_doc_id_collision`).  The
app-state and metadata ids are the sole component unchanged and are
injective unconditionally. -/
theorem doc_id_derivers_injective (a u i a' u' i' e e' k k' : Str)
    (ha : '_' ∉ a) (ha' : '_' ∉ a') (hu : '_' ∉ u) (hu' : '_' ∉ u')
    (he : '_' ∉ e) (he' : '_' ∉ e') :
    (session_doc_id a u i = session_doc_id a' u' i' →
      a = a' ∧ u = u' ∧ i = i') ∧
    (event_doc_id e a u i = event_doc_id e' a' u' i' →
      e = e' ∧ a = a' ∧ u = u' ∧ i = i') ∧
    (user_state_doc_id a u = user_state_doc_id a' u' → a = a' ∧ u = u') ∧
    (app_state_doc_id a = app_state_doc_id a' → a = a') ∧
    (metadata_doc_id k = metadata_doc_id k' → k = k') := by
  refine ⟨?_, ?_, ?_, fun h => h, fun h => h⟩
  · intro h
    simp only [session_doc_id, List.append_assoc, List.cons_append] at h
    obtain ⟨h₁, h₂⟩ := append_sep_inj ha ha' h
    obtain ⟨h₃, h₄⟩ := append_sep_inj hu hu' h₂
    exact ⟨h₁, h₃, h₄⟩
  · intro h
    simp only [event_doc_id, List.append_assoc, List.cons_append] at h
    obtain ⟨h₁, h₂⟩ := append_sep_inj he he' h
    obtain ⟨h₃, h₄⟩ := append_sep_inj ha ha' h₂
    obtain ⟨h₅, h₆⟩ := append_sep_inj hu hu' h₄
    exact ⟨h₁, h₃, h₅, h₆⟩
  · intro h
    simp only [user_state_doc_id, List.append_assoc, List.cons_append] at h
    exact append_sep_inj ha ha' h

theorem doc_id_derivers_injective_witness :
    (['x'] : Str) = ['x'] ∧ (['y'] : Str) = ['y'] ∧ (['z'] : Str) = ['z'] :=
  (doc_id_derivers_injective ['x'] ['y'] ['z'] ['x'] ['y'] ['z'] ['e'] ['e']
    ['k'] ['k'] (by decide) (by decide) (by decide) (by decide) (by decide)
    (by decide)).1 rfl

/-! ### C10 — failure atomicity of `append_event` -/

/-- C10: whenever `append_event` fails (session not found, or the
optimistic-concurrency check trips), the store is returned exactly as it
was: both raise sites precede every write. -/
theorem append_event_error_frame {V : Type} (st : Store V) (s : Session V)
    (e : Event V) (now : Int) (err : SvcError)
    (h : (append_event st s e now).1 = Except.error err) :
    (append_event st s e now).2 = st := by
  simp only [append_event] at h ⊢
  cases hp : e.isPartial with
  | true => simp [hp] at h
  | false =>
      simp only [hp, Bool.false_eq_true, if_false] at h ⊢
      cases hfind : findSessionRec st
          (session_doc_id s.app_name s.user_id s.id) with
      | none => rfl
      | some srec =>
          rw [hfind] at h
          dsimp only [] at h ⊢
          by_cases hst : s.last_update_time < srec.update_time
          · rw [if_pos hst]
          · rw [if_neg hst] at h
            exact absurd h (by simp)

theorem append_event_error_frame_witness :
    (append_event (emptyStore Nat) ⟨['a'], ['u'], ['s'], [], [], 0⟩
      ⟨['e'], [], 0, false, []⟩ 0).2 = emptyStore Nat :=
  append_event_error_frame (emptyStore Nat) ⟨['a'], ['u'], ['s'], [], [], 0⟩
    ⟨['e'], [], 0, false, []⟩ 0 SvcError.notFound rfl

/-! ### C1 — the optimistic-concurrency check -/

/-- C1: for a stored session record and a non-partial event,
`append_event` fails with `StaleSession` exactly when the stored record's
update timestamp is strictly greater than the `session` handle's
last-known update timestamp, and proceeds (returns successfully) whenever
it is less than or equal. -/
theorem append_event_stale_iff {V : Type} (st : Store V) (s : Session V)
    (e : Event V) (now : Int) (srec : MongoSession V)
    (hfind : findSessionRec st (session_doc_id s.app_name s.user_id s.id) =
      some srec)
    (hp : e.isPartial = false) :
    ((append_event st s e now).1 = Except.error SvcError.staleSession ↔
      s.last_update_time < srec.update_time) ∧
    (srec.update_time ≤ s.last_update_time →
      ∃ se, (append_event st s e now).1 = Except.ok se) := by
  simp only [append_event, hp, Bool.false_eq_true, if_false]
  rw [hfind]
  dsimp only []
  by_cases hst : s.last_update_time < srec.update_time
  · rw [if_pos hst]
    constructor
    · exact ⟨fun _ => hst, fun _ => rfl⟩
    · intro hle
      exact absurd hst (not_lt.mpr hle)
  · rw [if_neg hst]
    constructor
    · constructor
      · intro h
        exact absurd h (by simp)
      · intro h
        exact absurd h hst
    · intro _
      exact ⟨_, rfl⟩

theorem append_event_stale_iff_witness :
    ((append_event (⟨[⟨['a'], ['u'], ['s'], [], 0, 100⟩], [], [], []⟩ : Store Nat)
        ⟨['a'], ['u'], ['s'], [], [], 100⟩ ⟨['e'], [], 150, false, []⟩ 0).1 =
      Except.error SvcError.staleSession ↔ (100 : Int) < 100) ∧
    ((100 : Int) ≤ 100 →
      ∃ se, (append_event
        (⟨[⟨['a'], ['u'], ['s'], [], 0, 100⟩], [], [], []⟩ : Store Nat)
        ⟨['a'], ['u'], ['s'], [], [], 100⟩
        ⟨['e'], [], 150, false, []⟩ 0).1 = Except.ok se) :=
  append_event_stale_iff _ ⟨['a'], ['u'], ['s'], [], [], 100⟩
    ⟨['e'], [], 150, false, []⟩ 0 ⟨['a'], ['u'], ['s'], [], 0, 100⟩
    (by decide) rfl

/-! ### C2 — monotonicity of the stored update timestamp -/

/-- A partial event short-circuits `append_event`. -/
theorem append_event_partial_eq {V : Type} (st : Store V) (s : Session V)
    (e : Event V) (now : Int) (hp : e.isPartial = true) :
    append_event st s e now = (Except.ok (s, e), st) := by
  simp [append_event, hp]

/-- A tripped concurrency check makes `append_event` fail with the store
untouched. -/
theorem append_event_stale_eq {V : Type} (st : Store V) (s : Session V)
    (e : Event V) (now : Int) (srec : MongoSession V)
    (hp : e.isPartial = false)
    (hfind : findSessionRec st (session_doc_id s.app_name s.user_id s.id) =
      some srec)
    (hst : s.last_update_time < srec.update_time) :
    append_event st s e now = (Except.error SvcError.staleSession, st) := by
  simp only [append_event, hp, Bool.false_eq_true, if_false]
  rw [hfind]
  dsimp only []
  rw [if_pos hst]

/-- A successful non-partial append leaves, at the session's derived id,
a record whose update timestamp is the event's timestamp. -/
theorem append_event_ok_stored_ts {V : Type} {st : Store V} {s : Session V}
    {e : Event V} {now : Int} {srec : MongoSession V}
    (hp : e.isPartial = false)
    (hfind : findSessionRec st (session_doc_id s.app_name s.user_id s.id) =
      some srec)
    (hst : ¬s.last_update_time < srec.update_time) :
    ∃ r₂, findSessionRec (append_event st s e now).2
        (session_doc_id s.app_name s.user_id s.id) = some r₂ ∧
      r₂.update_time = e.timestamp := by
  have hfind₀ : List.find?
      (fun r => sessionDocIdOf r == session_doc_id s.app_name s.user_id s.id)
      st.sessions = some srec := hfind
  have hbeq := List.find?_some hfind₀
  have hsid : sessionDocIdOf srec = session_doc_id s.app_name s.user_id s.id := by
    simpa using hbeq
  simp only [append_event, hp, Bool.false_eq_true, if_false]
  rw [hfind]
  dsimp only []
  rw [if_neg hst]
  dsimp only [findSessionRec]
  refine ⟨_, find?_replaceById _ _ _ _ hfind ?_, rfl⟩
  simp only [sessionDocIdOf] at hsid ⊢
  split <;> exact hsid

/-- A sequence of `append_event` calls, stopping at the first failure
(`None`); `now` is the wall clock shared by the calls. -/
def append_chain {V : Type} (now : Int) :
    Store V → List (Session V × Event V) → Option (Store V)
  | st, [] => some st
  | st, (s, e) :: rest =>
      match append_event st s e now with
      | (Except.ok _, st₂) => append_chain now st₂ rest
      | (Except.error _, _) => none

/-- C2 counterexample: a successful `append_event` can regress the stored
update timestamp.  With the stored record at timestamp `100` and a fresh
handle (`last_update_time = 100`), appending a non-partial event whose
own timestamp is `50` passes the concurrency check (`100 > 100` is false)
and rewrites the stored record's update timestamp to `50 < 100` — the
append does not fail, so the claimed "must fail rather than regress" is
false on the code. -/
theorem append_event_regression :
    (append_event (⟨[⟨['a'], ['u'], ['s'], [], 0, 100⟩], [], [], []⟩ : Store Nat)
        ⟨['a'], ['u'], ['s'], [], [], 100⟩ ⟨['e'], [], 50, false, []⟩ 0).1 =
      Except.ok (⟨['a'], ['u'], ['s'], [], [], 50⟩, ⟨['e'], [], 50, false, []⟩) ∧
    (findSessionRec
        (⟨[⟨['a'], ['u'], ['s'], [], 0, 100⟩], [], [], []⟩ : Store Nat)
        (session_doc_id ['a'] ['u'] ['s'])).map MongoSession.update_time =
      some 100 ∧
    (findSessionRec
        (append_event (⟨[⟨['a'], ['u'], ['s'], [], 0, 100⟩], [], [], []⟩ : Store Nat)
          ⟨['a'], ['u'], ['s'], [], [], 100⟩ ⟨['e'], [], 50, false, []⟩ 0).2
        (session_doc_id ['a'] ['u'] ['s'])).map MongoSession.update_time =
      some 50 ∧
    (50 : Int) < 100 :=
  ⟨rfl, rfl, rfl, by decide⟩

/-- C2 (amended): a successful append sets the stored update timestamp to
the event's own timestamp, so the stored timestamp is monotonically
non-decreasing across a sequence of successful `appendEvent` calls
against one session **provided the appended events carry non-decreasing
timestamps, the first at or after the stored update timestamp**; without
that proviso a successful append regresses it
(`append_event_regression`). -/
theorem append_chain_stored_ts_monotone {V : Type} :
    ∀ (chain : List (Session V × Event V)) (st st' : Store V) (sid : Str)
      (srec : MongoSession V) (now : Int),
      (∀ p ∈ chain, session_doc_id p.1.app_name p.1.user_id p.1.id = sid) →
      chain.Chain' (fun p q => p.2.timestamp ≤ q.2.timestamp) →
      (∀ q, chain.head? = some q → srec.update_time ≤ q.2.timestamp) →
      findSessionRec st sid = some srec →
      append_chain now st chain = some st' →
      ∃ srec', findSessionRec st' sid = some srec' ∧
        srec.update_time ≤ srec'.update_time := by
  intro chain
  induction chain with
  | nil =>
      intro st st' sid srec now _ _ _ hfind hchain
      obtain rfl : st = st' := by simpa [append_chain] using hchain
      exact ⟨srec, hfind, le_refl _⟩
  | cons p rest ih =>
      intro st st' sid srec now htriple hchain hhead hfind hrun
      obtain ⟨s, e⟩ := p
      have hsid : session_doc_id s.app_name s.user_id s.id = sid :=
        htriple (s, e) (List.mem_cons_self _ _)
      have hchain' := List.chain'_cons'.mp hchain
      rcases h₁ : append_event st s e now with ⟨res, st₂⟩
      simp only [append_chain] at hrun
      rw [h₁] at hrun
      cases res with
      | error err => exact absurd hrun (by simp)
      | ok val =>
          dsimp only [] at hrun
          have hfirst : srec.update_time ≤ e.timestamp :=
            hhead (s, e) rfl
          have hrest_head : ∀ q, rest.head? = some q →
              e.timestamp ≤ q.2.timestamp :=
            fun q hq => hchain'.1 q hq
          cases hp : e.isPartial with
          | true =>
              have h₂ := append_event_partial_eq st s e now hp
              have h₃ : st₂ = st := congrArg Prod.snd (h₁.symm.trans h₂)
              rw [h₃] at hrun
              obtain ⟨srec', hfind', hle⟩ := ih st st' sid srec now
                (fun q hq => htriple q (List.mem_cons_of_mem _ hq))
                hchain'.2
                (fun q hq => le_trans hfirst (hrest_head q hq))
                hfind hrun
              exact ⟨srec', hfind', hle⟩
          | false =>
              rw [← hsid] at hfind
              by_cases hst : s.last_update_time < srec.update_time
              · have h₂ := append_event_stale_eq st s e now srec hp hfind hst
                rw [h₂] at h₁
                exact absurd (congrArg Prod.fst h₁.symm) (by simp)
              · obtain ⟨r₂, hfind₂, hts⟩ :=
                  append_event_ok_stored_ts hp hfind hst
                rw [h₁] at hfind₂
                dsimp only [] at hfind₂
                rw [hsid] at hfind₂
                obtain ⟨srec', hfind', hle⟩ := ih st₂ st' sid r₂ now
                  (fun q hq => htriple q (List.mem_cons_of_mem _ hq))
                  hchain'.2
                  (fun q hq => hts ▸ hrest_head q hq)
                  hfind₂ hrun
                exact ⟨srec', hfind', le_trans (hts ▸ hfirst) hle⟩

theorem append_chain_stored_ts_monotone_witness :
    ∃ srec', findSessionRec
        ((append_chain 0
          (⟨[⟨['a'], ['u'], ['s'], [], 0, 100⟩], [], [], []⟩ : Store Nat)
          [(⟨['a'], ['u'], ['s'], [], [], 100⟩,
            ⟨['e'], [], 120, false, []⟩)]).getD (emptyStore Nat))
        (session_doc_id ['a'] ['u'] ['s']) = some srec' ∧
      (100 : Int) ≤ srec'.update_time :=
  append_chain_stored_ts_monotone
    [(⟨['a'], ['u'], ['s'], [], [], 100⟩, ⟨['e'], [], 120, false, []⟩)]
    (⟨[⟨['a'], ['u'], ['s'], [], 0, 100⟩], [], [], []⟩ : Store Nat)
    ((append_chain 0
      (⟨[⟨['a'], ['u'], ['s'], [], 0, 100⟩], [], [], []⟩ : Store Nat)
      [(⟨['a'], ['u'], ['s'], [], [], 100⟩,
        ⟨['e'], [], 120, false, []⟩)]).getD (emptyStore Nat))
    (session_doc_id ['a'] ['u'] ['s'])
    ⟨['a'], ['u'], ['s'], [], 0, 100⟩ 0
    (by intro p hp; rcases List.mem_singleton.mp hp with rfl; rfl)
    (List.chain'_singleton _)
    (by intro q hq; rw [← Option.some.inj hq]; decide)
    rfl rfl

/-! ### C8 — delete_session -/

/-- C8: `delete_session` removes every event of the (app, user, session)
identity and the session record at the derived id, so a subsequent `get`
(any configuration, in particular one with no recency cap) returns
absent and the event count for the identity is zero; it is idempotent,
and — being modelled as a total function, exactly as `delete_many` and
`delete_one` never raise on a missing target — deleting a non-existent
session is not an error.  The `Nodup` hypothesis is MongoDB's `_id`
uniqueness for the `sessions` collection. -/
theorem delete_session_spec {V : Type} (st : Store V) (a u i : Str)
    (cfg : GetSessionConfig)
    (hnd : (st.sessions.map sessionDocIdOf).Nodup) :
    get_session (delete_session st a u i) a u i cfg = none ∧
    ((delete_session st a u i).events.filter
      (fun m => m.app_name == a && m.user_id == u &&
        m.session_id == i)).length = 0 ∧
    delete_session (delete_session st a u i) a u i = delete_session st a u i := by
  have hsessions : (delete_session st a u i).sessions =
      deleteFirst (fun r => sessionDocIdOf r == session_doc_id a u i)
        st.sessions := rfl
  have hevents : (delete_session st a u i).events =
      st.events.filter (fun m => !(m.app_name == a && m.user_id == u &&
        m.session_id == i)) := rfl
  have hfind : findSessionRec (delete_session st a u i)
      (session_doc_id a u i) = none := by
    show (delete_session st a u i).sessions.find?
        (fun r => sessionDocIdOf r == session_doc_id a u i) = none
    rw [hsessions]
    exact find?_deleteFirst_nodup sessionDocIdOf (session_doc_id a u i) hnd
  refine ⟨?_, ?_, ?_⟩
  · simp only [get_session]
    rw [hfind]
  · rw [hevents, List.filter_filter]
    simp
  · have h₁ : (delete_session (delete_session st a u i) a u i).events =
        (delete_session st a u i).events := by
      show ((delete_session st a u i).events.filter _) = _
      rw [hevents, List.filter_filter]
      have : ∀ m : MongoEvent V,
          ((m.app_name == a && m.user_id == u && m.session_id == i) = true →
            False) →
          (!(m.app_name == a && m.user_id == u && m.session_id == i)) =
            true := by
        intro m h
        simp only [Bool.not_eq_true']
        exact Bool.eq_false_iff.mpr (fun hc => h hc)
      apply List.filter_congr
      intro m _
      cases hm : (m.app_name == a && m.user_id == u && m.session_id == i) <;>
        simp [hm]
    have h₂ : (delete_session (delete_session st a u i) a u i).sessions =
        (delete_session st a u i).sessions := by
      show deleteFirst _ (delete_session st a u i).sessions = _
      exact deleteFirst_of_find?_none hfind
    have h₃ : (delete_session (delete_session st a u i) a u i).app_states =
        (delete_session st a u i).app_states := rfl
    have h₄ : (delete_session (delete_session st a u i) a u i).user_states =
        (delete_session st a u i).user_states := rfl
    cases hd : delete_session (delete_session st a u i) a u i
    cases hd₂ : delete_session st a u i
    rw [hd, hd₂] at h₁ h₂ h₃ h₄
    simp only [] at h₁ h₂ h₃ h₄
    rw [h₁, h₂, h₃, h₄]

theorem delete_session_spec_witness :
    get_session
      (delete_session
        (⟨[⟨['a'], ['u'], ['s'], [], 0, 0⟩],
          [⟨['e'], ['a'], ['u'], ['s'], [], 3, ⟨['e'], [], 3, false, []⟩⟩],
          [], []⟩ : Store Nat) ['a'] ['u'] ['s'])
      ['a'] ['u'] ['s'] ⟨none, none⟩ = none ∧
    ((delete_session
        (⟨[⟨['a'], ['u'], ['s'], [], 0, 0⟩],
          [⟨['e'], ['a'], ['u'], ['s'], [], 3, ⟨['e'], [], 3, false, []⟩⟩],
          [], []⟩ : Store Nat) ['a'] ['u'] ['s']).events.filter
      (fun m => m.app_name == ['a'] && m.user_id == ['u'] &&
        m.session_id == ['s'])).length = 0 ∧
    delete_session
      (delete_session
        (⟨[⟨['a'], ['u'], ['s'], [], 0, 0⟩],
          [⟨['e'], ['a'], ['u'], ['s'], [], 3, ⟨['e'], [], 3, false, []⟩⟩],
          [], []⟩ : Store Nat) ['a'] ['u'] ['s']) ['a'] ['u'] ['s'] =
      delete_session
        (⟨[⟨['a'], ['u'], ['s'], [], 0, 0⟩],
          [⟨['e'], ['a'], ['u'], ['s'], [], 3, ⟨['e'], [], 3, false, []⟩⟩],
          [], []⟩ : Store Nat) ['a'] ['u'] ['s'] :=
  delete_session_spec
    (⟨[⟨['a'], ['u'], ['s'], [], 0, 0⟩],
      [⟨['e'], ['a'], ['u'], ['s'], [], 3, ⟨['e'], [], 3, false, []⟩⟩],
      [], []⟩ : Store Nat) ['a'] ['u'] ['s'] ⟨none, none⟩ (by decide)

/-! ### C5 — partial events are never persisted -/

/-- `create_session` never writes to the `events` collection. -/
theorem create_session_events {V : Type} (st : Store V) (a u : Str)
    (d : Dict V) (sid? : Option Str) (genId : Str) (now : Int) :
    (create_session st a u d sid? genId now).2.events = st.events := by
  cases sid? with
  | none => rfl
  | some sid =>
      simp only [create_session]
      split
      · rfl
      · rfl

/-- The store produced by `append_event` either keeps the events
collection unchanged (partial event or failure) or appends the one
non-partial event being persisted. -/
theorem append_event_events_cases {V : Type} (st : Store V) (s : Session V)
    (e : Event V) (now : Int) :
    (append_event st s e now).2.events = st.events ∨
    ((append_event st s e now).2.events =
        st.events ++ [MongoEvent.fromEvent s e] ∧ e.isPartial = false) := by
  cases hp : e.isPartial with
  | true =>
      left
      rw [append_event_partial_eq st s e now hp]
  | false =>
      cases hfind : findSessionRec st
          (session_doc_id s.app_name s.user_id s.id) with
      | none =>
          left
          simp only [append_event, hp, Bool.false_eq_true, if_false]
          rw [hfind]
      | some srec =>
          by_cases hst : s.last_update_time < srec.update_time
          · left
            rw [append_event_stale_eq st s e now srec hp hfind hst]
          · right
            refine ⟨?_, rfl⟩
            simp only [append_event, hp, Bool.false_eq_true, if_false]
            rw [hfind]
            dsimp only []
            rw [if_neg hst]

/-- The stores reachable from the empty database through the service's
mutating operations (`create_session`, `append_event`,
`delete_session`); failed calls leave the store as it was, so they are
covered by the same constructors. -/
inductive Reachable {V : Type} : Store V → Prop where
  | init : Reachable (emptyStore V)
  | create (st : Store V) (a u : Str) (d : Dict V) (sid? : Option Str)
      (genId : Str) (now : Int) (h : Reachable st) :
      Reachable (create_session st a u d sid? genId now).2
  | append (st : Store V) (s : Session V) (e : Event V) (now : Int)
      (h : Reachable st) : Reachable (append_event st s e now).2
  | del (st : Store V) (a u i : Str) (h : Reachable st) :
      Reachable (delete_session st a u i)

/-- In every reachable store, every stored event record was persisted by
a non-partial append, hence carries `partial = false` in its dump. -/
theorem reachable_no_partial_events {V : Type} {st : Store V}
    (h : Reachable st) : ∀ m ∈ st.events, m.data.isPartial = false := by
  induction h with
  | init =>
      intro m hm
      exact absurd hm (List.not_mem_nil m)
  | create st a u d sid? genId now h ih =>
      intro m hm
      rw [create_session_events] at hm
      exact ih m hm
  | append st s e now h ih =>
      intro m hm
      rcases append_event_events_cases st s e now with hc | ⟨hc, hp⟩
      · rw [hc] at hm
        exact ih m hm
      · rw [hc] at hm
        rcases List.mem_append.mp hm with hm₁ | hm₂
        · exact ih m hm₁
        · rw [List.mem_singleton.mp hm₂]
          exact hp
  | del st a u i h ih =>
      intro m hm
      have : m ∈ st.events :=
        List.mem_of_mem_filter (by exact hm)
      exact ih m this

/-- Every event in a `get_session` result is the conversion of a stored
event record, with the same `partial` flag. -/
theorem get_session_events_from_store {V : Type} (st : Store V)
    (a u i : Str) (cfg : GetSessionConfig) (sess : Session V) (ev : Event V)
    (hget : get_session st a u i cfg = some sess) (hev : ev ∈ sess.events) :
    ∃ m ∈ st.events, ev.isPartial = m.data.isPartial := by
  simp only [get_session] at hget
  cases hfind : findSessionRec st (session_doc_id a u i) with
  | none =>
      rw [hfind] at hget
      exact absurd hget (by simp)
  | some srec =>
      rw [hfind] at hget
      dsimp only [] at hget
      have hsess := Option.some.inj hget
      rw [← hsess] at hev
      simp only [MongoSession.toSession] at hev
      obtain ⟨m, hm, hmeq⟩ := List.mem_map.mp hev
      have hm₂ : m ∈ mongoLimit
          (List.insertionSort (fun a b : MongoEvent V =>
            b.timestamp ≤ a.timestamp)
            (st.events.filter (eventMatches a u i cfg.after_timestamp)))
          cfg.num_recent_events := List.mem_reverse.mp hm
      have hm₃ : m ∈ List.insertionSort (fun a b : MongoEvent V =>
          b.timestamp ≤ a.timestamp)
          (st.events.filter (eventMatches a u i cfg.after_timestamp)) := by
        rcases hn : cfg.num_recent_events with - | n
        · rw [hn] at hm₂
          exact hm₂
        · rw [hn] at hm₂
          cases n with
          | zero => exact hm₂
          | succ k => exact (List.take_sublist _ _).subset hm₂
      have hm₄ : m ∈ st.events.filter (eventMatches a u i cfg.after_timestamp) :=
        ((List.perm_insertionSort _ _).mem_iff).mp hm₃
      refine ⟨m, (List.mem_filter.mp hm₄).1, ?_⟩
      rw [← hmeq]
      rfl

/-- C5: a partial event short-circuits `append_event` — it is returned
unchanged and the store is untouched (no event, session, app-state or
user-state record is written) — and consequently, in any reachable
store, no `get_session` result contains a partial event, under any
configuration. -/
theorem partial_events_never_persisted {V : Type} (st : Store V)
    (s : Session V) (e : Event V) (now : Int) (a u i : Str)
    (cfg : GetSessionConfig) (sess : Session V) (ev : Event V) :
    (e.isPartial = true → append_event st s e now = (Except.ok (s, e), st)) ∧
    (Reachable st → get_session st a u i cfg = some sess → ev ∈ sess.events →
      ev.isPartial = false) := by
  constructor
  · exact fun hp => append_event_partial_eq st s e now hp
  · intro hr hget hev
    obtain ⟨m, hm, heq⟩ :=
      get_session_events_from_store st a u i cfg sess ev hget hev
    rw [heq]
    exact reachable_no_partial_events hr m hm

/-- A concrete reachable store: one created session with one appended
non-partial event. -/
def c5Store₁ : Store Nat :=
  (create_session (emptyStore Nat) ['a'] ['u'] [] (some ['s']) [] 0).2

def c5Handle : Session Nat := ⟨['a'], ['u'], ['s'], [], [], 0⟩

def c5Event : Event Nat := ⟨['e'], [], 5, false, []⟩

def c5Store₂ : Store Nat := (append_event c5Store₁ c5Handle c5Event 0).2

def c5Sess : Session Nat :=
  (get_session c5Store₂ ['a'] ['u'] ['s'] ⟨none, none⟩).getD c5Handle

theorem c5Store₂_reachable : Reachable c5Store₂ :=
  Reachable.append c5Store₁ c5Handle c5Event 0
    (Reachable.create (emptyStore Nat) ['a'] ['u'] [] (some ['s']) [] 0
      Reachable.init)

theorem partial_events_never_persisted_witness :
    append_event (emptyStore Nat) c5Handle ⟨['p'], [], 1, true, []⟩ 0 =
      (Except.ok (c5Handle, ⟨['p'], [], 1, true, []⟩), emptyStore Nat) ∧
    c5Event.isPartial = false :=
  ⟨(partial_events_never_persisted (emptyStore Nat) c5Handle
      ⟨['p'], [], 1, true, []⟩ 0 ['a'] ['u'] ['s'] ⟨none, none⟩ c5Handle
      c5Event).1 rfl,
   (partial_events_never_persisted c5Store₂ c5Handle c5Event 0 ['a'] ['u']
      ['s'] ⟨none, none⟩ c5Sess c5Event).2 c5Store₂_reachable rfl
      (by decide)⟩

/-! ### C6 — get_session event filtering, cap and ordering -/

/-- One stored session with a single matching event. -/
def c6Store : Store Nat :=
  ⟨[⟨['a'], ['u'], ['s'], [], 0, 0⟩],
   [⟨['e'], ['a'], ['u'], ['s'], [], 10, ⟨['e'], [], 10, false, []⟩⟩],
   [], []⟩

/-- C6 counterexample: the recency cap is passed to the storage cursor's
`limit`, and a `limit` of `0` means *no limit* in MongoDB — so a
configuration capping the count at `0` returns all qualifying events
(here `1`), not the `0` most recent the claim implies. -/
theorem get_session_cap_zero_counterexample :
    (get_session c6Store ['a'] ['u'] ['s'] ⟨none, some 0⟩).map
      (fun s => s.events.length) = some 1 ∧ (1 : Nat) ≠ 0 :=
  ⟨rfl, by decide⟩

/-- C6 (amended): for every existing session and every configuration
whose recency cap is not `0` (a zero cap is passed to the storage
layer's `limit`, which treats `0` as "no limit"), the returned event
list is built from the events matching the session identity and the
optional lower time bound: it keeps `min cap |filtered|` of them (all of
them without a cap), every dropped event has a timestamp at most that of
every kept event (the most recent qualify), and the result is in
ascending timestamp order. -/
theorem get_session_filter_cap_order {V : Type} (st : Store V)
    (a u i : Str) (cfg : GetSessionConfig) (sess : Session V)
    (hcap : cfg.num_recent_events ≠ some 0)
    (hget : get_session st a u i cfg = some sess) :
    ∃ kept dropped : List (MongoEvent V),
      (st.events.filter (eventMatches a u i cfg.after_timestamp)).Perm
        (kept ++ dropped) ∧
      sess.events = kept.reverse.map MongoEvent.toEvent ∧
      List.Sorted (fun x y : Event V => x.timestamp ≤ y.timestamp)
        sess.events ∧
      (∀ x ∈ dropped, ∀ y ∈ kept, x.timestamp ≤ y.timestamp) ∧
      (∀ n, cfg.num_recent_events = some n →
        kept.length = min n
          (st.events.filter (eventMatches a u i cfg.after_timestamp)).length) ∧
      (cfg.num_recent_events = none → dropped = []) := by
  haveI : IsTotal (MongoEvent V)
      (fun a b : MongoEvent V => b.timestamp ≤ a.timestamp) :=
    ⟨fun a b => le_total b.timestamp a.timestamp⟩
  haveI : IsTrans (MongoEvent V)
      (fun a b : MongoEvent V => b.timestamp ≤ a.timestamp) :=
    ⟨fun a b c hab hbc => le_trans hbc hab⟩
  simp only [get_session] at hget
  cases hfind : findSessionRec st (session_doc_id a u i) with
  | none =>
      rw [hfind] at hget
      exact absurd hget (by simp)
  | some srec =>
      rw [hfind] at hget
      dsimp only [] at hget
      have hsess := (Option.some.inj hget).symm
      have hperm : (List.insertionSort
          (fun a b : MongoEvent V => b.timestamp ≤ a.timestamp)
          (st.events.filter (eventMatches a u i cfg.after_timestamp))).Perm
          (st.events.filter (eventMatches a u i cfg.after_timestamp)) :=
        List.perm_insertionSort _ _
      have hsorted : List.Pairwise
          (fun a b : MongoEvent V => b.timestamp ≤ a.timestamp)
          (List.insertionSort
            (fun a b : MongoEvent V => b.timestamp ≤ a.timestamp)
            (st.events.filter (eventMatches a u i cfg.after_timestamp))) :=
        List.sorted_insertionSort _ _
      rcases hn : cfg.num_recent_events with - | n
      · refine ⟨List.insertionSort
            (fun a b : MongoEvent V => b.timestamp ≤ a.timestamp)
            (st.events.filter (eventMatches a u i cfg.after_timestamp)),
          [], by simpa using hperm.symm, ?_, ?_, by simp, ?_, fun _ => rfl⟩
        · rw [hsess]
          simp only [MongoSession.toSession, hn, mongoLimit]
        · rw [hsess]
          simp only [MongoSession.toSession, hn, mongoLimit]
          exact List.pairwise_map.mpr (List.pairwise_reverse.mpr hsorted)
        · intro n hcontr
          exact absurd hcontr (by simp)
      · cases n with
        | zero => exact absurd hn hcap
        | succ k =>
            refine ⟨(List.insertionSort
                (fun a b : MongoEvent V => b.timestamp ≤ a.timestamp)
                (st.events.filter
                  (eventMatches a u i cfg.after_timestamp))).take (k + 1),
              (List.insertionSort
                (fun a b : MongoEvent V => b.timestamp ≤ a.timestamp)
                (st.events.filter
                  (eventMatches a u i cfg.after_timestamp))).drop (k + 1),
              ?_, ?_, ?_, ?_, ?_, ?_⟩
            · rw [List.take_append_drop]
              exact hperm.symm
            · rw [hsess]
              simp only [MongoSession.toSession, hn, mongoLimit]
            · rw [hsess]
              simp only [MongoSession.toSession, hn, mongoLimit]
              refine List.pairwise_map.mpr (List.pairwise_reverse.mpr ?_)
              exact hsorted.sublist (List.take_sublist _ _)
            · intro x hx y hy
              have hpair : List.Pairwise
                  (fun a b : MongoEvent V => b.timestamp ≤ a.timestamp)
                  ((List.insertionSort
                    (fun a b : MongoEvent V => b.timestamp ≤ a.timestamp)
                    (st.events.filter
                      (eventMatches a u i cfg.after_timestamp))).take (k + 1) ++
                  (List.insertionSort
                    (fun a b : MongoEvent V => b.timestamp ≤ a.timestamp)
                    (st.events.filter
                      (eventMatches a u i cfg.after_timestamp))).drop (k + 1)) := by
                rw [List.take_append_drop]
                exact hsorted
              exact (List.pairwise_append.mp hpair).2.2 y hy x hx
            · intro n hn₂
              obtain rfl := Option.some.inj hn₂
              rw [List.length_take, hperm.length_eq]
            · intro hcontr
              exact absurd hcontr (by simp)

def c6Sess : Session Nat :=
  (get_session c6Store ['a'] ['u'] ['s'] ⟨none, some 1⟩).getD
    ⟨[], [], [], [], [], 0⟩

theorem get_session_filter_cap_order_witness :
    ∃ kept dropped : List (MongoEvent Nat),
      (c6Store.events.filter (eventMatches ['a'] ['u'] ['s'] none)).Perm
        (kept ++ dropped) ∧
      c6Sess.events = kept.reverse.map MongoEvent.toEvent ∧
      List.Sorted (fun x y : Event Nat => x.timestamp ≤ y.timestamp)
        c6Sess.events ∧
      (∀ x ∈ dropped, ∀ y ∈ kept, x.timestamp ≤ y.timestamp) ∧
      (∀ n, (some 1 : Option Nat) = some n →
        kept.length = min n
          (c6Store.events.filter (eventMatches ['a'] ['u'] ['s'] none)).length) ∧
      ((some 1 : Option Nat) = none → dropped = []) :=
  get_session_filter_cap_order c6Store ['a'] ['u'] ['s'] ⟨none, some 1⟩
    c6Sess (by decide) rfl

/-! ### C9 — create_session -/

/-- C9 counterexample: the AlreadyExists check compares derived document
ids, which can collide across distinct identities.  With a stored
session `("a_b", "c", "d")` (document id `"a_b_c_d"`), creating the
distinct identity `("a", "b", "c_d")` — which no stored session has —
fails with `AlreadyExists` instead of persisting a new record. -/
theorem create_session_collision_counterexample :
    (create_session
      (⟨[⟨['a', '_', 'b'], ['c'], ['d'], [], 0, 0⟩], [], [], []⟩ : Store Nat)
      ['a'] ['b'] [] (some ['c', '_', 'd']) [] 0).1 =
      Except.error SvcError.alreadyExists ∧
    (⟨[⟨['a', '_', 'b'], ['c'], ['d'], [], 0, 0⟩], [], [], []⟩
        : Store Nat).sessions.all
      (fun r => !(r.app_name == ['a'] && r.user_id == ['b'] &&
        r.id == ['c', '_', 'd'])) = true :=
  ⟨rfl, by decide⟩

/-- Reading back the application state written by `create_core`: the
stored record at the application's id holds the pre-state merged with
the routed application fragment (unchanged when the fragment is empty). -/
theorem create_core_appStateOf {V : Type} (st : Store V) (a u : Str)
    (d : Dict V) (i : Str) (now : Int) :
    appStateOf (create_core st a u d i now).2 a =
      (if (extract_state_delta d).app.isEmpty then appStateOf st a
       else dunion (appStateOf st a) (extract_state_delta d).app) := by
  simp only [create_core, appStateOf]
  cases happ : st.app_states.find?
      (fun r => app_state_doc_id r.app_name == app_state_doc_id a) with
  | some d₀ =>
      have hdid : app_state_doc_id d₀.app_name = app_state_doc_id a := by
        simpa using List.find?_some happ
      by_cases hemp : (extract_state_delta d).app.isEmpty = true
      · simp [hemp, happ]
      · simp only [hemp, Bool.false_eq_true, if_false]
        have hrep := find?_replaceById
          (fun r : MongoAppState V => app_state_doc_id r.app_name)
          (app_state_doc_id a)
          { d₀ with state := dunion d₀.state (extract_state_delta d).app }
          false happ (by simpa using hdid)
        rw [hrep]
  | none =>
      by_cases hemp : (extract_state_delta d).app.isEmpty = true
      · simp only [hemp, if_true]
        have happend := find?_append_right
          (fun r : MongoAppState V =>
            app_state_doc_id r.app_name == app_state_doc_id a)
          (⟨a, [], now⟩ : MongoAppState V) happ (by simp [app_state_doc_id])
        rw [happend]
      · simp only [hemp, Bool.false_eq_true, if_false]
        have happend := find?_append_right
          (fun r : MongoAppState V =>
            app_state_doc_id r.app_name == app_state_doc_id a)
          (⟨a, [], now⟩ : MongoAppState V) happ (by simp [app_state_doc_id])
        have hrep := find?_replaceById
          (fun r : MongoAppState V => app_state_doc_id r.app_name)
          (app_state_doc_id a)
          { (⟨a, [], now⟩ : MongoAppState V) with
            state := dunion [] (extract_state_delta d).app }
          false happend (by simp [app_state_doc_id])
        rw [hrep]

/-- Reading back the user state written by `create_core`. -/
theorem create_core_userStateOf {V : Type} (st : Store V) (a u : Str)
    (d : Dict V) (i : Str) (now : Int) :
    userStateOf (create_core st a u d i now).2 a u =
      (if (extract_state_delta d).user.isEmpty then userStateOf st a u
       else dunion (userStateOf st a u) (extract_state_delta d).user) := by
  simp only [create_core, userStateOf]
  cases huser : st.user_states.find?
      (fun r => userStateDocIdOf r == user_state_doc_id a u) with
  | some d₀ =>
      have hdid : userStateDocIdOf d₀ = user_state_doc_id a u := by
        simpa using List.find?_some huser
      by_cases hemp : (extract_state_delta d).user.isEmpty = true
      · simp [hemp, huser]
      · simp only [hemp, Bool.false_eq_true, if_false]
        have hrep := find?_replaceById userStateDocIdOf
          (user_state_doc_id a u)
          { d₀ with state := dunion d₀.state (extract_state_delta d).user }
          false huser (by simpa [userStateDocIdOf] using hdid)
        rw [hrep]
  | none =>
      by_cases hemp : (extract_state_delta d).user.isEmpty = true
      · simp only [hemp, if_true]
        have happend := find?_append_right
          (fun r : MongoUserState V =>
            userStateDocIdOf r == user_state_doc_id a u)
          (⟨a, u, [], now⟩ : MongoUserState V) huser
          (by simp [userStateDocIdOf])
        rw [happend]
      · simp only [hemp, Bool.false_eq_true, if_false]
        have happend := find?_append_right
          (fun r : MongoUserState V =>
            userStateDocIdOf r == user_state_doc_id a u)
          (⟨a, u, [], now⟩ : MongoUserState V) huser
          (by simp [userStateDocIdOf])
        have hrep := find?_replaceById userStateDocIdOf
          (user_state_doc_id a u)
          { (⟨a, u, [], now⟩ : MongoUserState V) with
            state := dunion [] (extract_state_delta d).user }
          false happend (by simp [userStateDocIdOf])
        rw [hrep]

/-- The session returned by `create_core`: the new record's fields with
the merged effective state (pre-state scoped maps plus the routed
fragments). -/
theorem create_core_result {V : Type} (st : Store V) (a u : Str)
    (d : Dict V) (i : Str) (now : Int) :
    (create_core st a u d i now).1 = MongoSession.toSession
      ⟨a, u, i, (extract_state_delta d).session, now, now⟩
      (_merge_state
        (if (extract_state_delta d).app.isEmpty then appStateOf st a
         else dunion (appStateOf st a) (extract_state_delta d).app)
        (if (extract_state_delta d).user.isEmpty then userStateOf st a u
         else dunion (userStateOf st a u) (extract_state_delta d).user)
        (extract_state_delta d).session) [] := by
  have happ : (match st.app_states.find?
      (fun r : MongoAppState V =>
        app_state_doc_id r.app_name == app_state_doc_id a) with
      | some r => r
      | none => (⟨a, [], now⟩ : MongoAppState V)).state = appStateOf st a := by
    simp only [appStateOf]
    cases st.app_states.find?
        (fun r : MongoAppState V =>
          app_state_doc_id r.app_name == app_state_doc_id a) <;> rfl
  have huser : (match st.user_states.find?
      (fun r : MongoUserState V =>
        userStateDocIdOf r == user_state_doc_id a u) with
      | some r => r
      | none => (⟨a, u, [], now⟩ : MongoUserState V)).state =
        userStateOf st a u := by
    simp only [userStateOf]
    cases st.user_states.find?
        (fun r : MongoUserState V =>
          userStateDocIdOf r == user_state_doc_id a u) <;> rfl
  by_cases hempA : (extract_state_delta d).app.isEmpty = true <;>
    by_cases hempU : (extract_state_delta d).user.isEmpty = true <;>
    simp [create_core, hempA, hempU, happ, huser]

/-- C9 (amended): with a caller-supplied session id, `create_session`
fails with `AlreadyExists` exactly when some stored session's *derived
document id* equals that of the requested identity — which coincides
with an identity clash only when the underscore-joined components cannot
collide (`create_session_collision_counterexample`).  When no stored id
matches, a new session record (the routed session fragment, timestamps
`now`) is appended and the call returns the session with the effective
state merged from the post-call stored application/user states and the
new record's local state. -/
theorem create_session_spec {V : Type} (st : Store V) (a u i : Str)
    (d : Dict V) (genId : Str) (now : Int) :
    ((create_session st a u d (some i) genId now).1 =
        Except.error SvcError.alreadyExists ↔
      ∃ r ∈ st.sessions, sessionDocIdOf r = session_doc_id a u i) ∧
    ((∀ r ∈ st.sessions, sessionDocIdOf r ≠ session_doc_id a u i) →
      (create_session st a u d (some i) genId now).2.sessions =
        st.sessions ++
          [⟨a, u, i, (extract_state_delta d).session, now, now⟩] ∧
      (create_session st a u d (some i) genId now).1 =
        Except.ok (MongoSession.toSession
          ⟨a, u, i, (extract_state_delta d).session, now, now⟩
          (_merge_state
            (appStateOf (create_session st a u d (some i) genId now).2 a)
            (userStateOf (create_session st a u d (some i) genId now).2 a u)
            (extract_state_delta d).session) [])) := by
  have hiff : (findSessionRec st (session_doc_id a u i)).isSome = true ↔
      ∃ r ∈ st.sessions, sessionDocIdOf r = session_doc_id a u i := by
    simp [findSessionRec, List.find?_isSome]
  constructor
  · constructor
    · intro herr
      by_cases hex : (findSessionRec st (session_doc_id a u i)).isSome = true
      · exact hiff.mp hex
      · exfalso
        simp only [create_session, hex, Bool.false_eq_true, if_false] at herr
        exact absurd herr (by simp)
    · intro hex
      have hsome := hiff.mpr hex
      simp only [create_session, hsome, if_true]
  · intro hnone
    have hex : (findSessionRec st (session_doc_id a u i)).isSome = false := by
      rw [Bool.eq_false_iff]
      intro hcontr
      obtain ⟨r, hr, hid⟩ := hiff.mp hcontr
      exact hnone r hr hid
    have hval : create_session st a u d (some i) genId now =
        (Except.ok (create_core st a u d i now).1,
          (create_core st a u d i now).2) := by
      simp only [create_session, hex, Bool.false_eq_true, if_false]
    constructor
    · rw [hval]
      rfl
    · rw [hval]
      have := create_core_result st a u d i now
      rw [hval] at *
      simp only []
      rw [this, create_core_appStateOf, create_core_userStateOf]

def c9Sess : Session Nat :=
  ((create_session (emptyStore Nat) ['a'] ['u']
    [(['a', 'p', 'p', ':', 'x'], 1), (['g'], 2)] (some ['s']) [] 7).1.toOption).getD
    ⟨[], [], [], [], [], 0⟩

theorem create_session_spec_witness :
    ((create_session (emptyStore Nat) ['a'] ['u']
        [(['a', 'p', 'p', ':', 'x'], 1), (['g'], 2)] (some ['s']) [] 7).1 =
        Except.error SvcError.alreadyExists ↔
      ∃ r ∈ (emptyStore Nat).sessions,
        sessionDocIdOf r = session_doc_id ['a'] ['u'] ['s']) ∧
    ((∀ r ∈ (emptyStore Nat).sessions,
        sessionDocIdOf r ≠ session_doc_id ['a'] ['u'] ['s']) →
      (create_session (emptyStore Nat) ['a'] ['u']
          [(['a', 'p', 'p', ':', 'x'], 1), (['g'], 2)] (some ['s']) [] 7).2.sessions =
        (emptyStore Nat).sessions ++
          [⟨['a'], ['u'], ['s'],
            (extract_state_delta
              [(['a', 'p', 'p', ':', 'x'], 1), (['g'], 2)]).session, 7, 7⟩] ∧
      (create_session (emptyStore Nat) ['a'] ['u']
          [(['a', 'p', 'p', ':', 'x'], 1), (['g'], 2)] (some ['s']) [] 7).1 =
        Except.ok (MongoSession.toSession
          ⟨['a'], ['u'], ['s'],
            (extract_state_delta
              [(['a', 'p', 'p', ':', 'x'], 1), (['g'], 2)]).session, 7, 7⟩
          (_merge_state
            (appStateOf (create_session (emptyStore Nat) ['a'] ['u']
              [(['a', 'p', 'p', ':', 'x'], 1), (['g'], 2)]
              (some ['s']) [] 7).2 ['a'])
            (userStateOf (create_session (emptyStore Nat) ['a'] ['u']
              [(['a', 'p', 'p', ':', 'x'], 1), (['g'], 2)]
              (some ['s']) [] 7).2 ['a'] ['u'])
            (extract_state_delta
              [(['a', 'p', 'p', ':', 'x'], 1), (['g'], 2)]).session) [])) :=
  create_session_spec (emptyStore Nat) ['a'] ['u'] ['s']
    [(['a', 'p', 'p', ':', 'x'], 1), (['g'], 2)] [] 7

/-! ### C3 — route/merge round trip -/

/-- Looking up a key that satisfies the filter predicate ignores the
filter. -/
theorem dlookup_filter_key {V : Type} (P : Str × V → Bool) (d : Dict V)
    (k : Str) (hP : ∀ v, P (k, v) = true) :
    dlookup (d.filter P) k = dlookup d k := by
  induction d with
  | nil => rfl
  | cons p rest ih =>
      obtain ⟨k₁, v₁⟩ := p
      by_cases hk : k₁ = k
      · subst hk
        rw [List.filter_cons_of_pos (hP v₁)]
        simp [dlookup]
      · by_cases hp : P (k₁, v₁) = true
        · rw [List.filter_cons_of_pos hp]
          simp [dlookup, hk, ih]
        · rw [List.filter_cons_of_neg (by simpa using hp)]
          simp [dlookup, hk, ih]

/-- The two scope prefixes disagree on their first character, so their
prefixed keys never coincide. -/
theorem user_append_ne_app_append (x y : Str) :
    USER_PREFIX ++ x ≠ APP_PREFIX ++ y := by
  intro h
  simp only [USER_PREFIX, APP_PREFIX, List.cons_append, List.cons.injEq] at h
  exact absurd h.1 (by decide)

/-- C3: the route/merge round trip is the identity on deltas.  Python
dict equality is extensional, so the claim is stated through `dlookup`
at every key; the `Nodup` hypothesis is the key uniqueness every Python
dict enjoys. -/
theorem route_merge_roundtrip {V : Type} (d : Dict V)
    (hnd : (d.map Prod.fst).Nodup) (k : Str) :
    dlookup (_merge_state (extract_state_delta d).app
      (extract_state_delta d).user (extract_state_delta d).session) k =
    dlookup d k := by
  simp only [_merge_state]
  by_cases hA : APP_PREFIX.isPrefixOf k = true
  · obtain ⟨t, rfl⟩ := List.isPrefixOf_iff_prefix.mp hA
    have hstep1 : dlookup (List.foldl
        (fun m p => dinsert m (USER_PREFIX ++ p.1) p.2)
        (List.foldl (fun m p => dinsert m (APP_PREFIX ++ p.1) p.2)
          (extract_state_delta d).session (extract_state_delta d).app)
        (extract_state_delta d).user) (APP_PREFIX ++ t) =
        dlookup (List.foldl (fun m p => dinsert m (APP_PREFIX ++ p.1) p.2)
          (extract_state_delta d).session (extract_state_delta d).app)
          (APP_PREFIX ++ t) :=
      dlookup_foldl_of_notin (fun p => USER_PREFIX ++ p.1) Prod.snd _ _ _
        (fun p _ => user_append_ne_app_append p.1 t)
    rw [hstep1]
    rcases hvd : dlookup d (APP_PREFIX ++ t) with - | v
    · have hnone := (dlookup_eq_none_iff d (APP_PREFIX ++ t)).mp hvd
      have hstep2 : dlookup (List.foldl
          (fun m p => dinsert m (APP_PREFIX ++ p.1) p.2)
          (extract_state_delta d).session (extract_state_delta d).app)
          (APP_PREFIX ++ t) =
          dlookup (extract_state_delta d).session (APP_PREFIX ++ t) := by
        refine dlookup_foldl_of_notin (fun p => APP_PREFIX ++ p.1) Prod.snd
          _ _ _ ?_
        intro p hp hcontr
        simp only [extract_state_delta] at hp
        obtain ⟨q, hq, rfl⟩ := List.mem_map.mp hp
        have hqpref : APP_PREFIX.isPrefixOf q.1 = true :=
          (List.mem_filter.mp hq).2
        have hq1 : q.1 = APP_PREFIX ++ t :=
          (isPrefixOf_append_drop hqpref).symm.trans hcontr
        exact hnone q (List.mem_filter.mp hq).1 hq1
      rw [hstep2]
      refine (dlookup_eq_none_iff _ _).mpr ?_
      intro p hp hcontr
      simp only [extract_state_delta] at hp
      have hpred := (List.mem_filter.mp hp).2
      rw [hcontr, isPrefixOf_append] at hpred
      simp at hpred
    · have hnodupA : (List.map (fun p : Str × V => APP_PREFIX ++ p.1)
          (extract_state_delta d).app).Nodup := by
        have h₁ : List.map (fun p : Str × V => APP_PREFIX ++ p.1)
            (extract_state_delta d).app =
            List.map (fun q : Str × V =>
              APP_PREFIX ++ q.1.drop APP_PREFIX.length)
              (d.filter (fun p => APP_PREFIX.isPrefixOf p.1)) := by
          simp [extract_state_delta, List.map_map]
        have h₂ : List.map (fun q : Str × V =>
            APP_PREFIX ++ q.1.drop APP_PREFIX.length)
            (d.filter (fun p => APP_PREFIX.isPrefixOf p.1)) =
            List.map Prod.fst
              (d.filter (fun p => APP_PREFIX.isPrefixOf p.1)) :=
          List.map_congr_left (fun q hq =>
            isPrefixOf_append_drop ((List.mem_filter.mp hq).2))
        rw [h₁, h₂]
        exact List.Nodup.sublist
          (List.Sublist.map Prod.fst (List.filter_sublist d)) hnd
      have hmem : (t, v) ∈ (extract_state_delta d).app := by
        have h₀ : ((APP_PREFIX ++ t).drop APP_PREFIX.length, v) = (t, v) := by
          rw [List.drop_left]
        simp only [extract_state_delta]
        rw [← h₀]
        exact List.mem_map_of_mem _ (List.mem_filter.mpr
          ⟨mem_of_dlookup_eq_some hvd, isPrefixOf_append _ _⟩)
      have hstep2 : dlookup (List.foldl
          (fun m p => dinsert m (APP_PREFIX ++ p.1) p.2)
          (extract_state_delta d).session (extract_state_delta d).app)
          (APP_PREFIX ++ t) = some v :=
        dlookup_foldl_of_mem (fun p => APP_PREFIX ++ p.1) Prod.snd
          (extract_state_delta d).app (extract_state_delta d).session
          (APP_PREFIX ++ t) (t, v) hnodupA hmem rfl
      rw [hstep2]
  · by_cases hU : USER_PREFIX.isPrefixOf k = true
    · obtain ⟨t, rfl⟩ := List.isPrefixOf_iff_prefix.mp hU
      rcases hvd : dlookup d (USER_PREFIX ++ t) with - | v
      · have hnone := (dlookup_eq_none_iff d (USER_PREFIX ++ t)).mp hvd
        have hstep1 : dlookup (List.foldl
            (fun m p => dinsert m (USER_PREFIX ++ p.1) p.2)
            (List.foldl (fun m p => dinsert m (APP_PREFIX ++ p.1) p.2)
              (extract_state_delta d).session (extract_state_delta d).app)
            (extract_state_delta d).user) (USER_PREFIX ++ t) =
            dlookup (List.foldl (fun m p => dinsert m (APP_PREFIX ++ p.1) p.2)
              (extract_state_delta d).session (extract_state_delta d).app)
              (USER_PREFIX ++ t) := by
          refine dlookup_foldl_of_notin (fun p => USER_PREFIX ++ p.1)
            Prod.snd _ _ _ ?_
          intro p hp hcontr
          simp only [extract_state_delta] at hp
          obtain ⟨q, hq, rfl⟩ := List.mem_map.mp hp
          have hqpred := (List.mem_filter.mp hq).2
          have hqpref : USER_PREFIX.isPrefixOf q.1 = true := by
            simp only [Bool.and_eq_true] at hqpred
            exact hqpred.2
          have hq1 : q.1 = USER_PREFIX ++ t :=
            (isPrefixOf_append_drop hqpref).symm.trans hcontr
          exact hnone q (List.mem_filter.mp hq).1 hq1
        rw [hstep1]
        have hstep2 : dlookup (List.foldl
            (fun m p => dinsert m (APP_PREFIX ++ p.1) p.2)
            (extract_state_delta d).session (extract_state_delta d).app)
            (USER_PREFIX ++ t) =
            dlookup (extract_state_delta d).session (USER_PREFIX ++ t) := by
          refine dlookup_foldl_of_notin (fun p => APP_PREFIX ++ p.1)
            Prod.snd _ _ _ ?_
          intro p _ hcontr
          exact user_append_ne_app_append t p.1 hcontr.symm
        rw [hstep2]
        refine (dlookup_eq_none_iff _ _).mpr ?_
        intro p hp hcontr
        simp only [extract_state_delta] at hp
        have hpred := (List.mem_filter.mp hp).2
        rw [hcontr, isPrefixOf_append] at hpred
        simp at hpred
      · have hnodupU : (List.map (fun p : Str × V => USER_PREFIX ++ p.1)
            (extract_state_delta d).user).Nodup := by
          have h₁ : List.map (fun p : Str × V => USER_PREFIX ++ p.1)
              (extract_state_delta d).user =
              List.map (fun q : Str × V =>
                USER_PREFIX ++ q.1.drop USER_PREFIX.length)
                (d.filter (fun p => !APP_PREFIX.isPrefixOf p.1 &&
                  USER_PREFIX.isPrefixOf p.1)) := by
            simp [extract_state_delta, List.map_map]
          have h₂ : List.map (fun q : Str × V =>
              USER_PREFIX ++ q.1.drop USER_PREFIX.length)
              (d.filter (fun p => !APP_PREFIX.isPrefixOf p.1 &&
                USER_PREFIX.isPrefixOf p.1)) =
              List.map Prod.fst
                (d.filter (fun p => !APP_PREFIX.isPrefixOf p.1 &&
                  USER_PREFIX.isPrefixOf p.1)) := by
            refine List.map_congr_left (fun q hq => ?_)
            have hqpred := (List.mem_filter.mp hq).2
            simp only [Bool.and_eq_true] at hqpred
            exact isPrefixOf_append_drop hqpred.2
          rw [h₁, h₂]
          exact List.Nodup.sublist
            (List.Sublist.map Prod.fst (List.filter_sublist d)) hnd
        have hmem : (t, v) ∈ (extract_state_delta d).user := by
          have h₀ : ((USER_PREFIX ++ t).drop USER_PREFIX.length, v) =
              (t, v) := by
            rw [List.drop_left]
          simp only [extract_state_delta]
          rw [← h₀]
          refine List.mem_map_of_mem _ (List.mem_filter.mpr
            ⟨mem_of_dlookup_eq_some hvd, ?_⟩)
          rw [app_not_prefix_of_user, isPrefixOf_append]
          rfl
        have hstep1 : dlookup (List.foldl
            (fun m p => dinsert m (USER_PREFIX ++ p.1) p.2)
            (List.foldl (fun m p => dinsert m (APP_PREFIX ++ p.1) p.2)
              (extract_state_delta d).session (extract_state_delta d).app)
            (extract_state_delta d).user) (USER_PREFIX ++ t) = some v :=
          dlookup_foldl_of_mem (fun p => USER_PREFIX ++ p.1) Prod.snd
            (extract_state_delta d).user _ (USER_PREFIX ++ t) (t, v)
            hnodupU hmem rfl
        rw [hstep1]
    · have hstep1 : dlookup (List.foldl
          (fun m p => dinsert m (USER_PREFIX ++ p.1) p.2)
          (List.foldl (fun m p => dinsert m (APP_PREFIX ++ p.1) p.2)
            (extract_state_delta d).session (extract_state_delta d).app)
          (extract_state_delta d).user) k =
          dlookup (List.foldl (fun m p => dinsert m (APP_PREFIX ++ p.1) p.2)
            (extract_state_delta d).session (extract_state_delta d).app)
            k := by
        refine dlookup_foldl_of_notin (fun p => USER_PREFIX ++ p.1)
          Prod.snd _ _ _ ?_
        intro p _ hcontr
        exact hU (hcontr ▸ isPrefixOf_append USER_PREFIX p.1)
      rw [hstep1]
      have hstep2 : dlookup (List.foldl
          (fun m p => dinsert m (APP_PREFIX ++ p.1) p.2)
          (extract_state_delta d).session (extract_state_delta d).app) k =
          dlookup (extract_state_delta d).session k := by
        refine dlookup_foldl_of_notin (fun p => APP_PREFIX ++ p.1)
          Prod.snd _ _ _ ?_
        intro p _ hcontr
        exact hA (hcontr ▸ isPrefixOf_append APP_PREFIX p.1)
      rw [hstep2]
      simp only [extract_state_delta]
      refine dlookup_filter_key _ d k (fun v => ?_)
      have hA₂ : APP_PREFIX.isPrefixOf k = false := Bool.eq_false_iff.mpr hA
      have hU₂ : USER_PREFIX.isPrefixOf k = false := Bool.eq_false_iff.mpr hU
      simp [hA₂, hU₂]

theorem route_merge_roundtrip_witness :
    dlookup (_merge_state
      (extract_state_delta [(['a', 'p', 'p', ':', 'x'], 1), (['g'], 2)]).app
      (extract_state_delta [(['a', 'p', 'p', ':', 'x'], 1), (['g'], 2)]).user
      (extract_state_delta
        [(['a', 'p', 'p', ':', 'x'], 1), (['g'], 2)]).session)
      ['a', 'p', 'p', ':', 'x'] =
    dlookup [(['a', 'p', 'p', ':', 'x'], 1), (['g'], 2)]
      ['a', 'p', 'p', ':', 'x'] :=
  route_merge_roundtrip [(['a', 'p', 'p', ':', 'x'], 1), (['g'], 2)]
    (by decide) ['a', 'p', 'p', ':', 'x']

/-! ### C7 — per-user state isolation in list_sessions -/

/-- C7 counterexample: with a `userId` filter, `list_sessions` fetches
the user state by derived document id, and colliding ids of distinct
identities fetch another user's record.  Store: a user-state record for
`("a_b", "c")` holding `{"k": 7}` and a session owned by `("a", "b_c")`
with empty local state and no user-state record of its own.  Listing
`app="a", userId="b_c"` returns that session with effective state
`{"user:k": 7}` — user `("a_b", "c")`'s state — even though no stored
user-state record belongs to user `"b_c"`. -/
theorem list_sessions_leak_counterexample :
    (list_sessions
      (⟨[⟨['a'], ['b', '_', 'c'], ['s'], [], 0, 0⟩], [], [],
        [⟨['a', '_', 'b'], ['c'], [(['k'], 7)], 0⟩]⟩ : Store Nat)
      ['a'] (some ['b', '_', 'c'])).map (fun s => s.state) =
      [[(['u', 's', 'e', 'r', ':', 'k'], 7)]] ∧
    (⟨[⟨['a'], ['b', '_', 'c'], ['s'], [], 0, 0⟩], [], [],
      [⟨['a', '_', 'b'], ['c'], [(['k'], 7)], 0⟩]⟩ : Store Nat).user_states.all
      (fun r => !(r.user_id == ['b', '_', 'c'])) = true :=
  ⟨rfl, by decide⟩

/-- The spec's "that session's own owner's UserState": the stored
user-state record whose *fields* name exactly this (application, user)
pair, the empty state when absent. -/
def ownUserState {V : Type} (st : Store V) (app_name user_id : Str) :
    Dict V :=
  match st.user_states.find? (fun r =>
      r.app_name == app_name && r.user_id == user_id) with
  | some r => r.state
  | none => []

/-- Looking up a key in a dict built by folding records mirrors `find?`
over the records, when the record keys are unique. -/
theorem dlookup_build_map {A V : Type} (key : A → Str) (val : A → Dict V)
    (l : List A) (u : Str) (hnd : (l.map key).Nodup) :
    dlookup (l.foldl (fun m r => dinsert m (key r) (val r)) []) u =
      (l.find? (fun r => key r == u)).map val := by
  cases hfq : l.find? (fun r => key r == u) with
  | some r =>
      have hku : key r = u := by simpa using List.find?_some hfq
      rw [dlookup_foldl_of_mem key val l [] u r hnd
        (List.mem_of_find?_eq_some hfq) hku]
      rfl
  | none =>
      have hall := List.find?_eq_none.mp hfq
      rw [dlookup_foldl_of_notin key val l [] u
        (fun r hr hk => hall r hr (by simp [hk]))]
      rfl

/-- C7 (amended): every session returned by `list_sessions` carries the
merge of the application state, the user-state record *found at the
derived id* of its owner, and its local state.  Provided derived ids
cannot collide — the stored user-state application names and the queried
application name are underscore-free — and ids are unique (MongoDB `_id`
uniqueness), that record is the session's own owner's UserState (by
fields), never another user's; with colliding ids the `userId`-filtered
branch can leak another user's state
(`list_sessions_leak_counterexample`). -/
theorem list_sessions_isolation {V : Type} (st : Store V) (a : Str)
    (uid? : Option Str)
    (hnd : (st.user_states.map userStateDocIdOf).Nodup)
    (hua : ∀ r ∈ st.user_states, '_' ∉ r.app_name)
    (ha : '_' ∉ a) :
    list_sessions st a uid? = (st.sessions.filter (fun r =>
        r.app_name == a && (match uid? with
          | some u => r.user_id == u
          | none => true))).map (fun srec =>
      srec.toSession (_merge_state (appStateOf st a)
        (ownUserState st a srec.user_id) srec.state) []) := by
  cases uid? with
  | none =>
      simp only [list_sessions]
      refine List.map_congr_left ?_
      intro srec hsrec
      have hndf : ((st.user_states.filter
          (fun r => r.app_name == a)).map MongoUserState.user_id).Nodup := by
        refine nodup_map_of_determines MongoUserState.user_id
          userStateDocIdOf ?_
          (List.Nodup.sublist
            (List.Sublist.map userStateDocIdOf (List.filter_sublist _)) hnd)
        intro x hx y hy hxy
        have hxa : x.app_name = a := by
          simpa using (List.mem_filter.mp hx).2
        have hya : y.app_name = a := by
          simpa using (List.mem_filter.mp hy).2
        simp [userStateDocIdOf, user_state_doc_id, hxa, hya, hxy]
      have hmap := dlookup_build_map MongoUserState.user_id
        MongoUserState.state (st.user_states.filter (fun r => r.app_name == a))
        srec.user_id hndf
      rw [hmap, ← find?_filter_and]
      simp only [ownUserState]
      cases st.user_states.find? (fun r =>
          r.app_name == a && r.user_id == srec.user_id) <;> rfl
  | some u =>
      simp only [list_sessions]
      have hcong : st.user_states.find?
          (fun r => userStateDocIdOf r == user_state_doc_id a u) =
          st.user_states.find? (fun r => r.app_name == a && r.user_id == u) := by
        refine find?_congr_pred _ (fun r hr => ?_)
        refine Bool.coe_iff_coe.mp ?_
        simp only [beq_iff_eq, Bool.and_eq_true]
        constructor
        · intro h
          have h₂ := append_sep_inj (hua r hr) ha
            (by simpa [userStateDocIdOf, user_state_doc_id] using h)
          exact ⟨h₂.1, h₂.2⟩
        · rintro ⟨h₁, h₂⟩
          simp [userStateDocIdOf, user_state_doc_id, h₁, h₂]
      rw [hcong]
      refine List.map_congr_left ?_
      intro srec hsrec
      have hsu : srec.user_id = u := by
        have := (List.mem_filter.mp hsrec).2
        simp only [Bool.and_eq_true, beq_iff_eq] at this
        exact this.2
      simp only [ownUserState, hsu]
      cases hf : st.user_states.find? (fun r =>
          r.app_name == a && r.user_id == u) with
      | some r => simp [dlookup, dinsert]
      | none => rfl

/-- Two users of one application, each with a user-state record. -/
def c7Store : Store Nat :=
  ⟨[⟨['a'], ['u'], ['s'], [(['l'], 9)], 0, 0⟩,
    ⟨['a'], ['v'], ['t'], [], 0, 0⟩],
   [], [⟨['a'], [(['b'], 1)], 0⟩],
   [⟨['a'], ['u'], [(['c'], 2)], 0⟩, ⟨['a'], ['v'], [(['e'], 3)], 0⟩]⟩

theorem list_sessions_isolation_witness :
    list_sessions c7Store ['a'] none = (c7Store.sessions.filter (fun r =>
        r.app_name == ['a'] && (match (none : Option Str) with
          | some u => r.user_id == u
          | none => true))).map (fun srec =>
      srec.toSession (_merge_state (appStateOf c7Store ['a'])
        (ownUserState c7Store ['a'] srec.user_id) srec.state) []) :=
  list_sessions_isolation c7Store ['a'] none (by decide) (by decide)
    (by decide)
